import Mathlib

/-!
Verification of `ultralytics/solutions/distance_calculation.py`
(class `DistanceCalculation`): the mouse-driven two-object selection
state machine, the per-frame refresh of selected boxes, and the
centroid-distance computation.

The Python class state that matters to the claims is embedded as
`DCState`; the mouse callback `mouse_event_for_distance`, the frame
step `start_process` and the pure `calculate_distance` are translated
operation for operation.  Python's insertion-ordered `dict` used for
`selected_boxes` is embedded as an association list with
Python-faithful operations (`dictInsert` keeps the position of an
existing key and appends a fresh key; `dictLookup` finds the unique
entry of a key).  A Python `None` in `self.boxes` / `self.trk_ids`
becomes `Option.none`, and the `TypeError` that `zip(None, ...)`
raises becomes the `Except.error` branch of the mouse handler.
-/

/-- A bounding box `(x1, y1, x2, y2)`, as the tracker supplies it. -/
structure Box where
  x1 : Int
  y1 : Int
  x2 : Int
  y2 : Int
deriving DecidableEq, Repr

/-- One tracked detection of a frame: bounding box, class id, track id,
mirroring the parallel lists `boxes`, `clss`, `trk_ids` of the source. -/
structure Detection where
  box : Box
  cls : Int
  track_id : Int
deriving DecidableEq, Repr

/-- The insertion-ordered dictionary `self.selected_boxes : dict[track_id, box]`. -/
abbrev SelDict := List (Int × Box)

/-- Python `track_id in self.selected_boxes`. -/
def dictContains (d : SelDict) (k : Int) : Bool :=
  d.any (fun p => p.1 == k)

/-- Python `self.selected_boxes[track_id]` as a total lookup. -/
def dictLookup (d : SelDict) (k : Int) : Option Box :=
  (d.find? (fun p => p.1 == k)).map Prod.snd

/-- Python `self.selected_boxes[track_id] = box`: an existing key keeps its
position and gets the new value, a fresh key is appended at the end. -/
def dictInsert (d : SelDict) (k : Int) (v : Box) : SelDict :=
  if dictContains d k then d.map (fun p => if p.1 == k then (k, v) else p)
  else d ++ [(k, v)]

/-- The mutable state of a `DistanceCalculation` object that the claims
touch.  `boxes`, `clss` and `trk_ids` start as Python `None`
(`Option.none`) in `__init__` and are overwritten every frame. -/
structure DCState where
  boxes : Option (List Box)
  clss : Option (List Int)
  trk_ids : Option (List Int)
  centroids : List (Int × Int)
  left_mouse_count : Nat
  selected_boxes : SelDict
deriving DecidableEq, Repr

/-- The state right after `__init__`: no tracking information yet, zero
clicks, empty selection. -/
def initState : DCState :=
  { boxes := none, clss := none, trk_ids := none,
    centroids := [], left_mouse_count := 0, selected_boxes := [] }

/-- The mouse-event kinds the callback distinguishes:
`cv2.EVENT_LBUTTONDOWN`, `cv2.EVENT_RBUTTONDOWN`, and everything else
(for example `cv2.EVENT_MOUSEMOVE`), which the callback ignores. -/
inductive MouseEvent where
  | lbuttondown
  | rbuttondown
  | mousemove
deriving DecidableEq, Repr

/-- The hit test of the click handler:
`box[0] < x < box[2] and box[1] < y < box[3]` (strict on all four sides). -/
def insideBox (b : Box) (x y : Int) : Bool :=
  (b.x1 < x && x < b.x2) && (b.y1 < y && y < b.y2)

/-- The selection loop body of the left-click branch:
`for box, track_id in zip(self.boxes, self.trk_ids): if box[0] < x < box[2]
and box[1] < y < box[3] and track_id not in self.selected_boxes:
self.selected_boxes[track_id] = box`, folded over the zipped pairs with the
live dictionary threaded through. -/
def clickStep (x y : Int) (sel : SelDict) (p : Box × Int) : SelDict :=
  if insideBox p.1 x y && !(dictContains sel p.2) then dictInsert sel p.2 p.1
  else sel

/-- The whole selection loop: `clickStep` folded over the zipped
`(box, track_id)` pairs with the live dictionary threaded through. -/
def clickSelect (x y : Int) (sel : SelDict) (l : List (Box × Int)) : SelDict :=
  l.foldl (clickStep x y) sel

/-- `DistanceCalculation.mouse_event_for_distance`.  A left click first
increments `left_mouse_count`; while the incremented count is at most 2 it
runs the selection loop, which evaluates `zip(self.boxes, self.trk_ids)` —
if either is still Python `None` that raises a `TypeError`, embedded as the
`Except.error` branch.  A right click resets selection and counter; any
other event does nothing. -/
def mouse_event_for_distance (s : DCState) (ev : MouseEvent) (x y : Int) :
    Except String DCState :=
  match ev with
  | .lbuttondown =>
    let s1 := { s with left_mouse_count := s.left_mouse_count + 1 }
    if s1.left_mouse_count ≤ 2 then
      match s1.boxes, s1.trk_ids with
      | some bs, some ts =>
        .ok { s1 with selected_boxes := clickSelect x y s1.selected_boxes (bs.zip ts) }
      | _, _ => .error "TypeError: zip argument is not iterable"
    else .ok s1
  | .rbuttondown => .ok { s with selected_boxes := [], left_mouse_count := 0 }
  | .mousemove => .ok s

/-- One iteration of the annotation loop of `start_process`, restricted to
its effect on `selected_boxes`: `if len(self.selected_boxes) == 2: for
trk_id in self.selected_boxes.keys(): if trk_id == track_id:
self.selected_boxes[track_id] = box`.  Keys of a Python dict are unique, so
the inner loop assigns at most once, exactly when the dict contains the
detection's track id. -/
def refreshStep (sel : SelDict) (d : Detection) : SelDict :=
  if sel.length == 2 then
    if dictContains sel d.track_id then dictInsert sel d.track_id d.box else sel
  else sel

/-- `int((box[0] + box[2]) // 2), int((box[1] + box[3]) // 2)`: the centroid
of a selected box, with Python's floor division. -/
def centroidOf (b : Box) : Int × Int :=
  (Int.fdiv (b.x1 + b.x2) 2, Int.fdiv (b.y1 + b.y2) 2)

/-- Modelled from the spec: `solutions.extract_tracks` is not under `src/`;
per the spec's input contract the external tracker supplies, once per frame,
a sequence of detections (bounding box, class id, track id) which may be
empty, or no tracking output at all — the source tests `self.trk_ids is not
None` for the latter.  A frame input is therefore `none` (no track ids) or
`some` list of detections, and ingestion writes the three parallel lists. -/
abbrev FrameInput := Option (List Detection)

/-- The state- and measurement-relevant core of
`DistanceCalculation.start_process`: ingest the extracted tracks into
`boxes`/`clss`/`trk_ids`; when track ids are present, run the per-frame
refresh over the detections, and when exactly two boxes are selected
compute the two centroids handed to `calculate_distance` (returned as the
second component; rendering is outside the model); finally clear the
transient `centroids` buffer. -/
def start_process (s : DCState) (frame : FrameInput) :
    DCState × Option ((Int × Int) × (Int × Int)) :=
  match frame with
  | none => ({ s with boxes := none, clss := none, trk_ids := none }, none)
  | some dets =>
    let s1 := { s with
      boxes := some (dets.map (fun (d : Detection) => d.box)),
      clss := some (dets.map (fun (d : Detection) => d.cls)),
      trk_ids := some (dets.map (fun (d : Detection) => d.track_id)) }
    let sel := dets.foldl refreshStep s1.selected_boxes
    let res :=
      if sel.length == 2 then
        match sel.map (fun p => centroidOf p.2) with
        | c1 :: c2 :: _ => some (c1, c2)
        | _ => none
      else none
    ({ s1 with selected_boxes := sel, centroids := [] }, res)

/-- `DistanceCalculation.calculate_distance`: Euclidean pixel distance of the
two centroids, divided by `self.args["pixels_per_meter"]`, returned in
meters and millimeters. -/
noncomputable def calculate_distance (ppm : ℝ) (c1 c2 : Int × Int) : ℝ × ℝ :=
  let pixel_distance :=
    Real.sqrt (((c1.1 : ℝ) - (c2.1 : ℝ)) ^ 2 + ((c1.2 : ℝ) - (c2.2 : ℝ)) ^ 2)
  let distance_m := pixel_distance / ppm
  (distance_m, distance_m * 1000)

/-- The operations a user session interleaves: left clicks, right clicks and
frame-processing steps. -/
inductive Op where
  | lclick (x y : Int)
  | rclick
  | frame (dets : FrameInput)

/-- Run one operation on the state (the distance output of a frame step is
not part of the state). -/
def runOp (s : DCState) (op : Op) : Except String DCState :=
  match op with
  | .lclick x y => mouse_event_for_distance s .lbuttondown x y
  | .rclick => mouse_event_for_distance s .rbuttondown 0 0
  | .frame dets => .ok (start_process s dets).1

/-- Run a sequence of operations, stopping at the first raised error. -/
def runOps (s : DCState) (ops : List Op) : Except String DCState :=
  match ops with
  | [] => .ok s
  | op :: rest =>
    match runOp s op with
    | .ok s1 => runOps s1 rest
    | .error e => .error e

/-- Whether a transition completed without raising. -/
def exceptOk (e : Except String DCState) : Bool :=
  match e with
  | .ok _ => true
  | .error _ => false

/-- The state held by a completed run (initial state on error; used only on
runs proved to complete). -/
def stateOf (e : Except String DCState) : DCState :=
  match e with
  | .ok s => s
  | .error _ => initState

/-- Two boxes whose strict interiors share no integer point; with such
boxes on screen a single click can hit at most one of them. -/
def interiorDisjoint (b1 b2 : Box) : Prop :=
  ∀ x y : Int, ¬(insideBox b1 x y = true ∧ insideBox b2 x y = true)

/-- A frame operation is well-separated when its detections' boxes have
pairwise disjoint strict interiors; click and reset operations carry no
side condition. -/
def wellSeparated : Op → Prop
  | .frame (some dets) =>
    (dets.map (fun (d : Detection) => d.box)).Pairwise interiorDisjoint
  | _ => True

/-- The inductive invariant of the selection state machine: the selection
size is bounded by the click counter capped at 2, and the remembered boxes
of the last frame are pairwise interior-disjoint. -/
def SelInv (s : DCState) : Prop :=
  s.selected_boxes.length ≤ min s.left_mouse_count 2 ∧
  (∀ bs, s.boxes = some bs → bs.Pairwise interiorDisjoint)

/-! ### Dictionary lemmas -/

theorem dictContains_cons (p : Int × Box) (d : SelDict) (k : Int) :
    dictContains (p :: d) k = ((p.1 == k) || dictContains d k) := by
  simp [dictContains]

theorem dictLookup_cons_pos (p : Int × Box) (d : SelDict) (k : Int)
    (h : (p.1 == k) = true) : dictLookup (p :: d) k = some p.2 := by
  have hf : List.find? (fun q : Int × Box => q.1 == k) (p :: d) = some p :=
    List.find?_cons_of_pos _ h
  simp [dictLookup, hf]

theorem dictLookup_cons_neg (p : Int × Box) (d : SelDict) (k : Int)
    (h : (p.1 == k) = false) : dictLookup (p :: d) k = dictLookup d k := by
  have hf : List.find? (fun q : Int × Box => q.1 == k) (p :: d) =
      List.find? (fun q : Int × Box => q.1 == k) d :=
    List.find?_cons_of_neg _ (by simp [h])
  simp [dictLookup, hf]

theorem dictLookup_eq_none (d : SelDict) (k : Int)
    (h : dictContains d k = false) : dictLookup d k = none := by
  induction d with
  | nil => rfl
  | cons p d ih =>
    rw [dictContains_cons] at h
    rcases Bool.or_eq_false_iff.mp h with ⟨h1, h2⟩
    rw [dictLookup_cons_neg _ _ _ h1]
    exact ih h2

theorem map_fst_replace (d : SelDict) (k : Int) (v : Box) :
    (d.map (fun p => if p.1 == k then (k, v) else p)).map Prod.fst =
      d.map Prod.fst := by
  induction d with
  | nil => rfl
  | cons p d ih =>
    simp only [List.map_cons, ih]
    by_cases h : p.1 = k
    · simp [h]
    · simp [h]

theorem dictInsert_map_fst (d : SelDict) (k : Int) (v : Box)
    (h : dictContains d k = true) :
    (dictInsert d k v).map Prod.fst = d.map Prod.fst := by
  rw [dictInsert, if_pos h, map_fst_replace]

theorem dictContains_keys (d : SelDict) (k : Int) :
    dictContains d k = (d.map Prod.fst).any (fun a => a == k) := by
  induction d with
  | nil => rfl
  | cons p d ih => simp only [dictContains, List.map_cons, List.any_cons] at *; rw [ih]

theorem dictContains_eq_of_keys (d1 d2 : SelDict) (k : Int)
    (h : d1.map Prod.fst = d2.map Prod.fst) :
    dictContains d1 k = dictContains d2 k := by
  rw [dictContains_keys, dictContains_keys, h]

theorem dictContains_map_replace (d : SelDict) (k k2 : Int) (v : Box) :
    dictContains (d.map (fun p => if p.1 == k then (k, v) else p)) k2 =
      dictContains d k2 :=
  dictContains_eq_of_keys _ _ _ (by rw [map_fst_replace])

theorem dictContains_append_single (d : SelDict) (k k2 : Int) (v : Box) :
    dictContains (d ++ [(k, v)]) k2 = (dictContains d k2 || k == k2) := by
  simp [dictContains]

theorem dictContains_dictInsert (d : SelDict) (k k2 : Int) (v : Box) :
    dictContains (dictInsert d k v) k2 = (dictContains d k2 || k == k2) := by
  cases h : dictContains d k with
  | false => simp [dictInsert, h, dictContains_append_single]
  | true =>
    rw [dictInsert, if_pos h, dictContains_map_replace]
    cases hk : (k == k2) with
    | false => simp
    | true =>
      have : k = k2 := by simpa using hk
      subst this
      simp [h]

theorem dictLookup_map_replace_self (d : SelDict) (k : Int) (v : Box)
    (h : dictContains d k = true) :
    dictLookup (d.map (fun p => if p.1 == k then (k, v) else p)) k = some v := by
  induction d with
  | nil => simp [dictContains] at h
  | cons p d ih =>
    cases hp : (p.1 == k) with
    | true =>
      simp only [List.map_cons]
      rw [if_pos hp]
      exact dictLookup_cons_pos _ _ _ (by simp)
    | false =>
      rw [dictContains_cons, hp, Bool.false_or] at h
      simp only [List.map_cons]
      rw [if_neg (by simp [hp]), dictLookup_cons_neg _ _ _ hp]
      exact ih h

theorem dictLookup_map_replace_ne (d : SelDict) (k k2 : Int) (v : Box)
    (h : k ≠ k2) :
    dictLookup (d.map (fun p => if p.1 == k then (k, v) else p)) k2 =
      dictLookup d k2 := by
  induction d with
  | nil => rfl
  | cons p d ih =>
    cases hp : (p.1 == k) with
    | true =>
      have hpk : p.1 = k := by simpa using hp
      simp only [List.map_cons]
      rw [if_pos hp]
      rw [dictLookup_cons_neg (k, v) _ _ (by simpa using h),
          dictLookup_cons_neg p _ _ (by rw [hpk]; simpa using h), ih]
    | false =>
      simp only [List.map_cons]
      rw [if_neg (by simp [hp])]
      cases hp2 : (p.1 == k2) with
      | true =>
        rw [dictLookup_cons_pos _ _ _ hp2, dictLookup_cons_pos _ _ _ hp2]
      | false =>
        rw [dictLookup_cons_neg _ _ _ hp2, dictLookup_cons_neg _ _ _ hp2, ih]

theorem dictLookup_append_single_self (d : SelDict) (k : Int) (v : Box)
    (h : dictContains d k = false) :
    dictLookup (d ++ [(k, v)]) k = some v := by
  induction d with
  | nil => exact dictLookup_cons_pos _ _ _ (by simp)
  | cons p d ih =>
    rw [dictContains_cons] at h
    rcases Bool.or_eq_false_iff.mp h with ⟨h1, h2⟩
    rw [List.cons_append, dictLookup_cons_neg _ _ _ h1]
    exact ih h2

theorem dictLookup_append_single_ne (d : SelDict) (k k2 : Int) (v : Box)
    (h : k ≠ k2) :
    dictLookup (d ++ [(k, v)]) k2 = dictLookup d k2 := by
  induction d with
  | nil =>
    rw [List.nil_append, dictLookup_cons_neg _ _ _ (by simpa using h)]
  | cons p d ih =>
    cases hp : (p.1 == k2) with
    | true =>
      rw [List.cons_append, dictLookup_cons_pos _ _ _ hp, dictLookup_cons_pos _ _ _ hp]
    | false =>
      rw [List.cons_append, dictLookup_cons_neg _ _ _ hp, dictLookup_cons_neg _ _ _ hp, ih]

theorem dictLookup_dictInsert_self (d : SelDict) (k : Int) (v : Box) :
    dictLookup (dictInsert d k v) k = some v := by
  cases h : dictContains d k with
  | true => rw [dictInsert, if_pos h]; exact dictLookup_map_replace_self d k v h
  | false => rw [dictInsert, if_neg (by simp [h])]; exact dictLookup_append_single_self d k v h

theorem dictLookup_dictInsert_ne (d : SelDict) (k k2 : Int) (v : Box)
    (h : k ≠ k2) :
    dictLookup (dictInsert d k v) k2 = dictLookup d k2 := by
  cases hc : dictContains d k with
  | true => rw [dictInsert, if_pos hc]; exact dictLookup_map_replace_ne d k k2 v h
  | false => rw [dictInsert, if_neg (by simp [hc])]; exact dictLookup_append_single_ne d k k2 v h

theorem dictInsert_length_le (d : SelDict) (k : Int) (v : Box) :
    (dictInsert d k v).length ≤ d.length + 1 := by
  cases h : dictContains d k with
  | true => simp [dictInsert, h]
  | false => simp [dictInsert, h]

/-! ### Selection-loop lemmas -/

theorem clickSelect_cons (x y : Int) (sel : SelDict) (p : Box × Int)
    (l : List (Box × Int)) :
    clickSelect x y sel (p :: l) = clickSelect x y (clickStep x y sel p) l := rfl

theorem clickSelect_no_hit (x y : Int) (l : List (Box × Int)) :
    ∀ sel : SelDict, (∀ p ∈ l, insideBox p.1 x y = false) →
      clickSelect x y sel l = sel := by
  induction l with
  | nil => intro sel _; rfl
  | cons p l ih =>
    intro sel h
    rw [clickSelect_cons]
    simp only [clickStep]
    rw [if_neg (by simp [h p (List.mem_cons_self p l)])]
    exact ih sel (fun q hq => h q (List.mem_cons_of_mem p hq))

theorem clickSelect_preserve (x y : Int) (l : List (Box × Int)) :
    ∀ sel t, dictContains sel t = true →
      dictContains (clickSelect x y sel l) t = true ∧
      dictLookup (clickSelect x y sel l) t = dictLookup sel t := by
  induction l with
  | nil => intro sel t h; exact ⟨h, rfl⟩
  | cons p l ih =>
    intro sel t h
    rw [clickSelect_cons]
    simp only [clickStep]
    cases hcond : (insideBox p.1 x y && !(dictContains sel p.2)) with
    | false =>
      rw [if_neg (by simp [hcond])]
      exact ih sel t h
    | true =>
      rw [if_pos rfl]
      have hsplit : insideBox p.1 x y = true ∧ dictContains sel p.2 = false := by
        simpa using hcond
      obtain ⟨hin, hnc'⟩ := hsplit
      have hne : p.2 ≠ t := by
        intro he
        rw [he, h] at hnc'
        cases hnc'
      have h1 : dictContains (dictInsert sel p.2 p.1) t = true := by
        rw [dictContains_dictInsert, h]
        simp
      obtain ⟨ha, hb⟩ := ih (dictInsert sel p.2 p.1) t h1
      exact ⟨ha, by rw [hb, dictLookup_dictInsert_ne _ _ _ _ hne]⟩

theorem clickSelect_new_key (x y : Int) (l : List (Box × Int)) :
    ∀ (sel : SelDict) (t : Int) (b : Box), dictContains sel t = false →
      dictLookup (clickSelect x y sel l) t = some b →
      (b, t) ∈ l ∧ insideBox b x y = true := by
  induction l with
  | nil =>
    intro sel t b h hl
    rw [show clickSelect x y sel [] = sel from rfl, dictLookup_eq_none sel t h] at hl
    cases hl
  | cons p l ih =>
    intro sel t b h hl
    rw [clickSelect_cons] at hl
    simp only [clickStep] at hl
    cases hcond : (insideBox p.1 x y && !(dictContains sel p.2)) with
    | false =>
      rw [if_neg (by simp [hcond])] at hl
      obtain ⟨hm, hi⟩ := ih sel t b h hl
      exact ⟨List.mem_cons_of_mem p hm, hi⟩
    | true =>
      rw [if_pos hcond] at hl
      have hsplit : insideBox p.1 x y = true ∧ dictContains sel p.2 = false := by
        simpa using hcond
      obtain ⟨hin, -⟩ := hsplit
      by_cases ht : p.2 = t
      · have hc1 : dictContains (dictInsert sel p.2 p.1) t = true := by
          rw [dictContains_dictInsert]
          simp [ht]
        obtain ⟨-, hpres⟩ := clickSelect_preserve x y l (dictInsert sel p.2 p.1) t hc1
        rw [hpres, ← ht, dictLookup_dictInsert_self] at hl
        have hb : p.1 = b := by injection hl
        subst hb
        subst ht
        exact ⟨List.mem_cons_self p l, hin⟩
      · have hc0 : dictContains (dictInsert sel p.2 p.1) t = false := by
          rw [dictContains_dictInsert, h]
          simp [ht]
        obtain ⟨hm, hi⟩ := ih _ t b hc0 hl
        exact ⟨List.mem_cons_of_mem p hm, hi⟩

theorem clickSelect_length_le (x y : Int) (l : List (Box × Int)) :
    ∀ sel : SelDict, l.Pairwise (fun p q => interiorDisjoint p.1 q.1) →
      (clickSelect x y sel l).length ≤ sel.length + 1 := by
  induction l with
  | nil => intro sel _; exact Nat.le_succ _
  | cons p l ih =>
    intro sel hdisj
    obtain ⟨hhead, htail⟩ := List.pairwise_cons.mp hdisj
    rw [clickSelect_cons]
    simp only [clickStep]
    cases hcond : (insideBox p.1 x y && !(dictContains sel p.2)) with
    | false =>
      rw [if_neg (by simp [hcond])]
      exact ih sel htail
    | true =>
      rw [if_pos rfl]
      have hsplit : insideBox p.1 x y = true ∧ dictContains sel p.2 = false := by
        simpa using hcond
      obtain ⟨hin, -⟩ := hsplit
      have hrest : ∀ q ∈ l, insideBox q.1 x y = false := by
        intro q hq
        cases hv : insideBox q.1 x y with
        | false => rfl
        | true => exact absurd ⟨hin, hv⟩ (hhead q hq x y)
      rw [clickSelect_no_hit x y l _ hrest]
      exact dictInsert_length_le _ _ _

theorem pairwise_zip_of_pairwise_fst {R : Box → Box → Prop} :
    ∀ (bs : List Box) (ts : List Int), bs.Pairwise R →
      (bs.zip ts).Pairwise (fun p q => R p.1 q.1) := by
  intro bs
  induction bs with
  | nil => intro ts _; simp
  | cons b bs ih =>
    intro ts hp
    cases ts with
    | nil => simp
    | cons t ts =>
      obtain ⟨hhead, htail⟩ := List.pairwise_cons.mp hp
      rw [List.zip_cons_cons]
      refine List.Pairwise.cons ?_ (ih ts htail)
      intro q hq
      obtain ⟨qb, qt⟩ := q
      exact hhead qb (List.of_mem_zip hq).1

/-! ### Per-frame refresh lemmas -/

theorem refreshStep_map_fst (sel : SelDict) (d : Detection) :
    (refreshStep sel d).map Prod.fst = sel.map Prod.fst := by
  rw [refreshStep]
  split
  · split
    · exact dictInsert_map_fst _ _ _ (by assumption)
    · rfl
  · rfl

theorem refresh_map_fst (dets : List Detection) :
    ∀ sel : SelDict,
      (dets.foldl refreshStep sel).map Prod.fst = sel.map Prod.fst := by
  induction dets with
  | nil => intro sel; rfl
  | cons d dets ih =>
    intro sel
    rw [List.foldl_cons, ih, refreshStep_map_fst]

theorem refresh_length (dets : List Detection) (sel : SelDict) :
    (dets.foldl refreshStep sel).length = sel.length := by
  have h := congrArg List.length (refresh_map_fst dets sel)
  simpa using h

theorem refresh_id_of_ne_two (dets : List Detection) :
    ∀ sel : SelDict, sel.length ≠ 2 → dets.foldl refreshStep sel = sel := by
  induction dets with
  | nil => intro sel _; rfl
  | cons d dets ih =>
    intro sel h
    rw [List.foldl_cons, refreshStep, if_neg (by simpa using h)]
    exact ih sel h

theorem refresh_lookup (sel : SelDict) (hlen : sel.length = 2) (t : Int)
    (hc : dictContains sel t = true) (dets : List Detection) :
    dictLookup (dets.foldl refreshStep sel) t =
      (match dets.reverse.find? (fun d => d.track_id == t) with
        | some d => some d.box
        | none => dictLookup sel t) := by
  induction dets using List.reverseRecOn with
  | nil => rfl
  | append_singleton dets d ih =>
    have hkeys := refresh_map_fst dets sel
    have hRc : dictContains (dets.foldl refreshStep sel) t = true := by
      rw [dictContains_eq_of_keys _ sel t hkeys]
      exact hc
    have hRlen : (dets.foldl refreshStep sel).length = 2 := by
      rw [refresh_length]
      exact hlen
    rw [List.foldl_append, List.reverse_append, List.reverse_singleton,
        List.singleton_append]
    cases hdt : (d.track_id == t) with
    | true =>
      have hdt' : d.track_id = t := by simpa using hdt
      have hf : List.find? (fun x : Detection => x.track_id == t) (d :: dets.reverse) =
          some d := List.find?_cons_of_pos _ hdt
      rw [hf]
      show dictLookup (refreshStep (dets.foldl refreshStep sel) d) t = some d.box
      rw [refreshStep, if_pos (by simp [hRlen]), if_pos (by rw [hdt']; exact hRc)]
      rw [hdt', dictLookup_dictInsert_self]
    | false =>
      have hdt' : d.track_id ≠ t := by simpa using hdt
      have hf : List.find? (fun x : Detection => x.track_id == t) (d :: dets.reverse) =
          List.find? (fun x : Detection => x.track_id == t) dets.reverse :=
        List.find?_cons_of_neg _ (by simp [hdt])
      rw [hf, ← ih]
      show dictLookup (refreshStep (dets.foldl refreshStep sel) d) t = _
      rw [refreshStep, if_pos (by simp [hRlen])]
      cases hcd : dictContains (dets.foldl refreshStep sel) d.track_id with
      | true => rw [if_pos rfl, dictLookup_dictInsert_ne _ _ _ _ hdt']
      | false => rw [if_neg (by simp)]

/-! ### Mouse-handler case analysis and the selection invariant -/

theorem lclick_cases (s : DCState) (x y : Int) (s' : DCState)
    (h : mouse_event_for_distance s .lbuttondown x y = .ok s') :
    s'.left_mouse_count = s.left_mouse_count + 1 ∧
    s'.boxes = s.boxes ∧ s'.trk_ids = s.trk_ids ∧
    ((s.left_mouse_count + 1 ≤ 2 ∧
        ∃ bs ts, s.boxes = some bs ∧ s.trk_ids = some ts ∧
          s'.selected_boxes = clickSelect x y s.selected_boxes (bs.zip ts)) ∨
      (2 < s.left_mouse_count + 1 ∧ s'.selected_boxes = s.selected_boxes)) := by
  simp only [mouse_event_for_distance] at h
  by_cases hle : s.left_mouse_count + 1 ≤ 2
  · rw [if_pos hle] at h
    cases hb : s.boxes with
    | none =>
      rw [hb] at h
      cases ht : s.trk_ids with
      | none => rw [ht] at h; cases h
      | some ts => rw [ht] at h; cases h
    | some bs =>
      rw [hb] at h
      cases ht : s.trk_ids with
      | none => rw [ht] at h; cases h
      | some ts =>
        rw [ht] at h
        have hs' := (Except.ok.inj h).symm
        subst hs'
        exact ⟨rfl, rfl, rfl, Or.inl ⟨hle, bs, ts, rfl, rfl, rfl⟩⟩
  · rw [if_neg hle] at h
    have hs' := (Except.ok.inj h).symm
    subst hs'
    exact ⟨rfl, rfl, rfl, Or.inr ⟨by omega, rfl⟩⟩

theorem selInv_init : SelInv initState := by
  constructor
  · simp [initState]
  · intro bs hbs
    simp [initState] at hbs

theorem runOp_preserves_selInv (s : DCState) (op : Op) (s' : DCState)
    (hinv : SelInv s) (hws : wellSeparated op) (h : runOp s op = .ok s') :
    SelInv s' := by
  obtain ⟨hlen, hboxes⟩ := hinv
  cases op with
  | lclick x y =>
    obtain ⟨hc, hb, ht, hcase⟩ := lclick_cases s x y s' h
    rcases hcase with ⟨hle, bs, ts, hbs, hts, hsel⟩ | ⟨hgt, hsel⟩
    · constructor
      · rw [hsel, hc]
        have hpw := pairwise_zip_of_pairwise_fst bs ts (hboxes bs hbs)
        have hle2 := clickSelect_length_le x y (bs.zip ts) s.selected_boxes hpw
        omega
      · intro bs' hbs'
        rw [hb] at hbs'
        exact hboxes bs' hbs'
    · constructor
      · rw [hsel, hc]
        omega
      · intro bs' hbs'
        rw [hb] at hbs'
        exact hboxes bs' hbs'
  | rclick =>
    simp only [runOp, mouse_event_for_distance] at h
    have hs' := (Except.ok.inj h).symm
    subst hs'
    constructor
    · simp
    · intro bs' hbs'
      exact hboxes bs' hbs'
  | frame dets =>
    simp only [runOp] at h
    have hs' := (Except.ok.inj h).symm
    subst hs'
    cases dets with
    | none =>
      constructor
      · exact hlen
      · intro bs' hbs'
        simp [start_process] at hbs'
    | some l =>
      constructor
      · show (l.foldl refreshStep s.selected_boxes).length ≤ _
        rw [refresh_length]
        exact hlen
      · intro bs' hbs'
        have hbs'' : some (l.map (fun (d : Detection) => d.box)) = some bs' := hbs'
        have he := Option.some.inj hbs''
        rw [← he]
        exact hws

theorem runOps_preserves_selInv (ops : List Op) :
    ∀ s : DCState, SelInv s → (∀ op ∈ ops, wellSeparated op) →
      ∀ s', runOps s ops = .ok s' → SelInv s' := by
  induction ops with
  | nil =>
    intro s hinv _ s' h
    have hs' := Except.ok.inj h
    rw [← hs']
    exact hinv
  | cons op ops ih =>
    intro s hinv hws s' h
    simp only [runOps] at h
    cases hrun : runOp s op with
    | error e => rw [hrun] at h; cases h
    | ok s1 =>
      rw [hrun] at h
      exact ih s1
        (runOp_preserves_selInv s op s1 hinv (hws op (List.mem_cons_self op ops)) hrun)
        (fun o ho => hws o (List.mem_cons_of_mem op ho)) s' h

/-! ### Claim theorems -/

/-- C5: processing a secondary-click (right-button) event, from any prior
state whatsoever, yields an empty selection mapping and a click counter
equal to zero. -/
theorem secondary_click_resets (s : DCState) (x y : Int) :
    ∃ s', mouse_event_for_distance s .rbuttondown x y = .ok s' ∧
      s'.selected_boxes = [] ∧ s'.left_mouse_count = 0 :=
  ⟨{ s with selected_boxes := [], left_mouse_count := 0 }, rfl, rfl, rfl⟩

/-- C6: for every pair of centroids and every calibration constant,
`calculate_distance` returns meters equal to the Euclidean pixel distance
divided by the calibration constant, and millimeters equal to meters
times 1000. -/
theorem distance_formula (ppm : ℝ) (c1 c2 : Int × Int) :
    (calculate_distance ppm c1 c2).1 =
      Real.sqrt (((c1.1 : ℝ) - (c2.1 : ℝ)) ^ 2 + ((c1.2 : ℝ) - (c2.2 : ℝ)) ^ 2) / ppm ∧
    (calculate_distance ppm c1 c2).2 =
      1000 * (Real.sqrt (((c1.1 : ℝ) - (c2.1 : ℝ)) ^ 2 + ((c1.2 : ℝ) - (c2.2 : ℝ)) ^ 2) / ppm) := by
  constructor
  · rfl
  · show Real.sqrt (((c1.1 : ℝ) - (c2.1 : ℝ)) ^ 2 + ((c1.2 : ℝ) - (c2.2 : ℝ)) ^ 2) / ppm * 1000 =
      1000 * (Real.sqrt (((c1.1 : ℝ) - (c2.1 : ℝ)) ^ 2 + ((c1.2 : ℝ) - (c2.2 : ℝ)) ^ 2) / ppm)
    ring

/-- C7: the estimated distance is symmetric in its two centroid
arguments. -/
theorem distance_symmetric (ppm : ℝ) (a b : Int × Int) :
    calculate_distance ppm a b = calculate_distance ppm b a := by
  simp only [calculate_distance]
  have h : ((a.1 : ℝ) - (b.1 : ℝ)) ^ 2 + ((a.2 : ℝ) - (b.2 : ℝ)) ^ 2 =
      ((b.1 : ℝ) - (a.1 : ℝ)) ^ 2 + ((b.2 : ℝ) - (a.2 : ℝ)) ^ 2 := by ring
  rw [h]

/-- C3 counterexample: from the empty state, one frame with two overlapping
boxes (tracks 1 and 2) and a separate box (track 3) followed by one primary
click inside the overlap yields a state with exactly two selected
track_ids; a further primary click inside box 3 changes the selection
mapping, so a primary click from a two-selection state is not always
ignored. -/
theorem third_click_not_ignored :
    (stateOf (runOps initState
        [Op.frame (some [⟨⟨0,0,10,10⟩,0,1⟩, ⟨⟨0,0,10,10⟩,0,2⟩, ⟨⟨20,0,30,10⟩,0,3⟩]),
         Op.lclick 5 5])).selected_boxes.length = 2 ∧
    (stateOf (runOps initState
        [Op.frame (some [⟨⟨0,0,10,10⟩,0,1⟩, ⟨⟨0,0,10,10⟩,0,2⟩, ⟨⟨20,0,30,10⟩,0,3⟩]),
         Op.lclick 5 5, Op.lclick 25 5])).selected_boxes ≠
      (stateOf (runOps initState
        [Op.frame (some [⟨⟨0,0,10,10⟩,0,1⟩, ⟨⟨0,0,10,10⟩,0,2⟩, ⟨⟨20,0,30,10⟩,0,3⟩]),
         Op.lclick 5 5])).selected_boxes := by decide

/-- C3 (amended): a primary click leaves the selection mapping unchanged
whenever the click counter is already at least 2 — in particular in any
state reached by two prior primary clicks.  (A state holding two selections
with click counter still below 2, reachable only by one click inside
overlapping boxes, can still gain entries.) -/
theorem third_click_ignored (s : DCState) (x y : Int)
    (h2 : 2 ≤ s.left_mouse_count) :
    ∃ s', mouse_event_for_distance s .lbuttondown x y = .ok s' ∧
      s'.selected_boxes = s.selected_boxes ∧
      s'.left_mouse_count = s.left_mouse_count + 1 := by
  refine ⟨{ s with left_mouse_count := s.left_mouse_count + 1 }, ?_, rfl, rfl⟩
  simp only [mouse_event_for_distance]
  rw [if_neg (by omega : ¬(s.left_mouse_count + 1 ≤ 2))]

/-- C3 witness: the amended theorem applied at a concrete two-selection
state with click counter 2. -/
theorem third_click_ignored_witness :
    ∃ s', mouse_event_for_distance
        { boxes := some [⟨0,0,10,10⟩], clss := some [0], trk_ids := some [1],
          centroids := [], left_mouse_count := 2,
          selected_boxes := [(1, ⟨0,0,10,10⟩), (2, ⟨50,50,60,60⟩)] }
        .lbuttondown 5 5 = .ok s' ∧
      s'.selected_boxes = [(1, ⟨0,0,10,10⟩), (2, ⟨50,50,60,60⟩)] ∧
      s'.left_mouse_count = 3 :=
  third_click_ignored
    { boxes := some [⟨0,0,10,10⟩], clss := some [0], trk_ids := some [1],
      centroids := [], left_mouse_count := 2,
      selected_boxes := [(1, ⟨0,0,10,10⟩), (2, ⟨50,50,60,60⟩)] }
    5 5 (by decide)

/-- C4 counterexample: a primary click delivered before the first frame has
been processed raises (the zipped detection lists are still `None`), so not
every transition is a total function. -/
theorem click_before_first_frame_errors :
    exceptOk (mouse_event_for_distance initState .lbuttondown 5 5) = false := by
  decide

/-- C4 (amended): every mouse-event transition returns normally provided
the detection and track-id lists have been initialized by a prior frame
ingestion; a primary click while they are uninitialized raises a
TypeError. -/
theorem transitions_total_after_ingest (s : DCState) (ev : MouseEvent) (x y : Int)
    (hb : s.boxes.isSome = true) (ht : s.trk_ids.isSome = true) :
    exceptOk (mouse_event_for_distance s ev x y) = true := by
  cases ev with
  | lbuttondown =>
    obtain ⟨bs, hbs⟩ := Option.isSome_iff_exists.mp hb
    obtain ⟨ts, hts⟩ := Option.isSome_iff_exists.mp ht
    simp only [mouse_event_for_distance]
    by_cases hle : s.left_mouse_count + 1 ≤ 2
    · rw [if_pos hle, hbs, hts]
      rfl
    · rw [if_neg hle]
      rfl
  | rbuttondown => rfl
  | mousemove => rfl

/-- C4 witness: the amended theorem applied at a concrete state after a
frame has been ingested. -/
theorem transitions_total_after_ingest_witness :
    exceptOk (mouse_event_for_distance
      { boxes := some [⟨0,0,10,10⟩], clss := some [0], trk_ids := some [1],
        centroids := [], left_mouse_count := 0, selected_boxes := [] }
      .lbuttondown 5 5) = true :=
  transitions_total_after_ingest
    { boxes := some [⟨0,0,10,10⟩], clss := some [0], trk_ids := some [1],
      centroids := [], left_mouse_count := 0, selected_boxes := [] }
    .lbuttondown 5 5 rfl rfl

/-- C9: every primary-click event increments the click counter, even when
the click point lies inside no detection box; and once the counter has
reached 2, every further primary click leaves the selection mapping
unchanged (so nothing can be selected again until a secondary-click
reset). -/
theorem primary_click_counts_and_saturates (s : DCState) (x y : Int)
    (bs : List Box) (ts : List Int)
    (hb : s.boxes = some bs) (ht : s.trk_ids = some ts) :
    ∃ s', mouse_event_for_distance s .lbuttondown x y = .ok s' ∧
      s'.left_mouse_count = s.left_mouse_count + 1 ∧
      ((∀ b ∈ bs, insideBox b x y = false) → s'.selected_boxes = s.selected_boxes) ∧
      (2 ≤ s.left_mouse_count → s'.selected_boxes = s.selected_boxes) := by
  by_cases hle : s.left_mouse_count + 1 ≤ 2
  · refine ⟨{ s with
              left_mouse_count := s.left_mouse_count + 1,
              selected_boxes := clickSelect x y s.selected_boxes (bs.zip ts) },
      ?_, rfl, ?_, ?_⟩
    · simp only [mouse_event_for_distance]
      rw [if_pos hle, hb, ht]
    · intro hmiss
      show clickSelect x y s.selected_boxes (bs.zip ts) = s.selected_boxes
      apply clickSelect_no_hit
      intro p hp
      obtain ⟨pb, pt⟩ := p
      exact hmiss pb (List.of_mem_zip hp).1
    · intro h2
      exact absurd h2 (by omega)
  · refine ⟨{ s with left_mouse_count := s.left_mouse_count + 1 }, ?_, rfl,
      fun _ => rfl, fun _ => rfl⟩
    simp only [mouse_event_for_distance]
    rw [if_neg hle]

/-- C9 witness: the theorem applied at a concrete state whose single
detection box does not contain the click point. -/
theorem primary_click_counts_and_saturates_witness :
    ∃ s', mouse_event_for_distance
        { boxes := some [⟨0,0,10,10⟩], clss := some [0], trk_ids := some [1],
          centroids := [], left_mouse_count := 0, selected_boxes := [] }
        .lbuttondown 50 50 = .ok s' ∧
      s'.left_mouse_count = 0 + 1 ∧
      ((∀ b ∈ ([⟨0,0,10,10⟩] : List Box), insideBox b 50 50 = false) →
        s'.selected_boxes = []) ∧
      (2 ≤ 0 → s'.selected_boxes = []) :=
  primary_click_counts_and_saturates
    { boxes := some [⟨0,0,10,10⟩], clss := some [0], trk_ids := some [1],
      centroids := [], left_mouse_count := 0, selected_boxes := [] }
    50 50 [⟨0,0,10,10⟩] [1] rfl rfl

/-- C10: a primary click adds a track_id to the selection only with a box
that strictly contains the click point (`x1 < x < x2` and `y1 < y < y2`);
in particular a point on the boundary of a box never selects that box. -/
theorem only_strict_interior_selects (s : DCState) (x y : Int)
    (bs : List Box) (ts : List Int) (s' : DCState)
    (hb : s.boxes = some bs) (ht : s.trk_ids = some ts)
    (h : mouse_event_for_distance s .lbuttondown x y = .ok s')
    (t : Int) (b : Box)
    (hnew : dictContains s.selected_boxes t = false)
    (hsel : dictLookup s'.selected_boxes t = some b) :
    (b, t) ∈ bs.zip ts ∧ b.x1 < x ∧ x < b.x2 ∧ b.y1 < y ∧ y < b.y2 := by
  obtain ⟨-, hb', ht', hcase⟩ := lclick_cases s x y s' h
  rcases hcase with ⟨-, bs2, ts2, hbs2, hts2, hselq⟩ | ⟨-, hselq⟩
  · rw [hb] at hbs2
    rw [ht] at hts2
    have hbse := Option.some.inj hbs2
    have htse := Option.some.inj hts2
    subst hbse
    subst htse
    obtain ⟨hm, hin⟩ := clickSelect_new_key x y (bs.zip ts) s.selected_boxes t b hnew
      (by rw [← hselq]; exact hsel)
    refine ⟨hm, ?_⟩
    simp only [insideBox, Bool.and_eq_true, decide_eq_true_eq] at hin
    exact ⟨hin.1.1, hin.1.2, hin.2.1, hin.2.2⟩
  · rw [hselq, dictLookup_eq_none _ _ hnew] at hsel
    cases hsel

/-- C1 counterexample: with exactly one selected track_id, the per-frame
refresh does NOT overwrite its stored box even though that track_id appears
in the frame's detections with a different box — the refresh step is gated
on exactly two selections, so the claim's "regardless of how many track_ids
are currently selected" fails. -/
theorem stale_box_with_one_selected :
    (stateOf (runOps initState
        [Op.frame (some [⟨⟨0,0,10,10⟩,0,1⟩]), Op.lclick 5 5])).selected_boxes =
      [(1, ⟨0,0,10,10⟩)] ∧
    (start_process
        (stateOf (runOps initState
          [Op.frame (some [⟨⟨0,0,10,10⟩,0,1⟩]), Op.lclick 5 5]))
        (some [⟨⟨2,2,12,12⟩,0,1⟩])).1.selected_boxes = [(1, ⟨0,0,10,10⟩)] ∧
    ((⟨0,0,10,10⟩ : Box) ≠ ⟨2,2,12,12⟩) := by decide

/-- C1 (amended): the per-frame refresh of `start_process` applies only
when exactly two track_ids are selected.  Keys are never added or removed
by a frame step; with a selection size other than two the mapping is left
entirely unchanged; with exactly two, each selected track_id that appears
among the detections has its box overwritten by the last matching
detection's box, and one that does not appear keeps its stale stored
box. -/
theorem refresh_only_when_two_selected (s : DCState) (dets : List Detection) :
    ((start_process s (some dets)).1.selected_boxes.map Prod.fst =
        s.selected_boxes.map Prod.fst) ∧
    (s.selected_boxes.length ≠ 2 →
      (start_process s (some dets)).1.selected_boxes = s.selected_boxes) ∧
    (s.selected_boxes.length = 2 → ∀ t, dictContains s.selected_boxes t = true →
      dictLookup (start_process s (some dets)).1.selected_boxes t =
        (match dets.reverse.find? (fun d => d.track_id == t) with
          | some d => some d.box
          | none => dictLookup s.selected_boxes t)) := by
  have hsel : (start_process s (some dets)).1.selected_boxes =
      dets.foldl refreshStep s.selected_boxes := rfl
  refine ⟨?_, ?_, ?_⟩
  · rw [hsel]
    exact refresh_map_fst dets s.selected_boxes
  · intro hne
    rw [hsel]
    exact refresh_id_of_ne_two dets s.selected_boxes hne
  · intro hlen t hc
    rw [hsel]
    exact refresh_lookup s.selected_boxes hlen t hc dets

/-- C1 witness: the amended theorem applied at a concrete two-selection
state whose track 1 reappears with a new box. -/
theorem refresh_only_when_two_selected_witness :
    dictLookup (start_process
        { boxes := none, clss := none, trk_ids := none, centroids := [],
          left_mouse_count := 2,
          selected_boxes := [(1, ⟨0,0,10,10⟩), (2, ⟨50,0,60,10⟩)] }
        (some [⟨⟨5,5,15,15⟩, 0, 1⟩])).1.selected_boxes 1 = some ⟨5,5,15,15⟩ := by
  have h := (refresh_only_when_two_selected
      { boxes := none, clss := none, trk_ids := none, centroids := [],
        left_mouse_count := 2,
        selected_boxes := [(1, ⟨0,0,10,10⟩), (2, ⟨50,0,60,10⟩)] }
      [⟨⟨5,5,15,15⟩, 0, 1⟩]).2.2 rfl 1 rfl
  rw [h]
  decide

/-- C2 counterexample: starting from the empty state, one frame with three
mutually overlapping boxes and a single primary click inside all three adds
three entries to the selection mapping, so its size exceeds 2. -/
theorem selection_size_exceeds_two :
    exceptOk (runOps initState
        [Op.frame (some [⟨⟨0,0,10,10⟩,0,1⟩, ⟨⟨0,0,10,10⟩,0,2⟩, ⟨⟨0,0,10,10⟩,0,3⟩]),
         Op.lclick 5 5]) = true ∧
    2 < (stateOf (runOps initState
        [Op.frame (some [⟨⟨0,0,10,10⟩,0,1⟩, ⟨⟨0,0,10,10⟩,0,2⟩, ⟨⟨0,0,10,10⟩,0,3⟩]),
         Op.lclick 5 5])).selected_boxes.length := by decide

/-- C2 (amended): over every operation sequence from the empty state in
which each processed frame's detection boxes have pairwise disjoint strict
interiors (so a click point lies strictly inside at most one box), the
selection mapping never holds more than 2 entries.  Without that proviso a
single click inside several overlapping boxes adds one entry per box. -/
theorem selection_size_bounded (ops : List Op) (s' : DCState)
    (hws : ∀ op ∈ ops, wellSeparated op)
    (h : runOps initState ops = .ok s') :
    s'.selected_boxes.length ≤ 2 := by
  have hinv := runOps_preserves_selInv ops initState selInv_init hws s' h
  have h1 := hinv.1
  omega

/-- C2 witness: the amended theorem applied to a concrete run — one
well-separated frame and one selecting click. -/
theorem selection_size_bounded_witness :
    (stateOf (runOps initState
        [Op.frame (some [⟨⟨0,0,10,10⟩,0,1⟩]), Op.lclick 5 5])).selected_boxes.length ≤ 2 :=
  selection_size_bounded
    [Op.frame (some [⟨⟨0,0,10,10⟩,0,1⟩]), Op.lclick 5 5]
    (stateOf (runOps initState [Op.frame (some [⟨⟨0,0,10,10⟩,0,1⟩]), Op.lclick 5 5]))
    (by
      intro op hop
      rcases List.mem_cons.mp hop with rfl | hop2
      · simp [wellSeparated]
      · rcases List.mem_cons.mp hop2 with rfl | hop3
        · trivial
        · cases hop3)
    rfl

/-- C8: with detections `track 1 : (0,0,10,10)` and `track 2 : (100,0,110,10)`
and calibration 10 pixels per meter, one primary click strictly inside each
box selects both; the next frame computes centroids `(5,5)` and `(105,5)`,
whose pixel distance is 100, and `calculate_distance` returns exactly
10 meters and 10000 millimeters. -/
theorem two_object_scenario :
    exceptOk (runOps initState
      [Op.frame (some [⟨⟨0,0,10,10⟩,0,1⟩, ⟨⟨100,0,110,10⟩,0,2⟩]),
       Op.lclick 5 5, Op.lclick 105 5]) = true ∧
    (stateOf (runOps initState
      [Op.frame (some [⟨⟨0,0,10,10⟩,0,1⟩, ⟨⟨100,0,110,10⟩,0,2⟩]),
       Op.lclick 5 5, Op.lclick 105 5])).selected_boxes =
      [(1, ⟨0,0,10,10⟩), (2, ⟨100,0,110,10⟩)] ∧
    (start_process (stateOf (runOps initState
      [Op.frame (some [⟨⟨0,0,10,10⟩,0,1⟩, ⟨⟨100,0,110,10⟩,0,2⟩]),
       Op.lclick 5 5, Op.lclick 105 5]))
      (some [⟨⟨0,0,10,10⟩,0,1⟩, ⟨⟨100,0,110,10⟩,0,2⟩])).2 =
      some ((5, 5), (105, 5)) ∧
    Real.sqrt ((((5:Int) : ℝ) - ((105:Int) : ℝ)) ^ 2 +
        (((5:Int) : ℝ) - ((5:Int) : ℝ)) ^ 2) = 100 ∧
    calculate_distance 10 (5, 5) (105, 5) = (10, 10000) := by
  have hsq : (((5:Int) : ℝ) - ((105:Int) : ℝ)) ^ 2 +
      (((5:Int) : ℝ) - ((5:Int) : ℝ)) ^ 2 = 100 ^ 2 := by
    norm_num
  have hsqrt : Real.sqrt ((((5:Int) : ℝ) - ((105:Int) : ℝ)) ^ 2 +
      (((5:Int) : ℝ) - ((5:Int) : ℝ)) ^ 2) = 100 := by
    rw [hsq, Real.sqrt_sq (by norm_num : (0:ℝ) ≤ 100)]
  refine ⟨by decide, by decide, by decide, hsqrt, ?_⟩
  have h100 : Real.sqrt 10000 = 100 := by
    rw [show (10000:ℝ) = 100 ^ 2 by norm_num, Real.sqrt_sq (by norm_num : (0:ℝ) ≤ 100)]
  simp only [calculate_distance]
  rw [Prod.ext_iff]
  constructor
  · norm_num
    rw [h100]
    norm_num
  · norm_num
    rw [h100]
    norm_num

/-- C10 witness: the theorem applied at a concrete state, a click at
`(5,5)` strictly inside the box `(0,0,10,10)` of track 7. -/
theorem only_strict_interior_selects_witness :
    ((⟨0,0,10,10⟩ : Box), (7 : Int)) ∈
        (([⟨0,0,10,10⟩] : List Box).zip ([7] : List Int)) ∧
      (0 : Int) < 5 ∧ (5 : Int) < 10 ∧ (0 : Int) < 5 ∧ (5 : Int) < 10 :=
  only_strict_interior_selects
    { boxes := some [⟨0,0,10,10⟩], clss := some [0], trk_ids := some [7],
      centroids := [], left_mouse_count := 0, selected_boxes := [] }
    5 5 [⟨0,0,10,10⟩] [7]
    { boxes := some [⟨0,0,10,10⟩], clss := some [0], trk_ids := some [7],
      centroids := [], left_mouse_count := 1,
      selected_boxes := [(7, ⟨0,0,10,10⟩)] }
    rfl rfl rfl 7 ⟨0,0,10,10⟩ rfl rfl
